import Mathlib

/-!
Shallow embedding of `rcon/extended_commands.py`.

Python strings are modelled as `List Char`; a Python exception raised inside
the per-line `try` of `parse_logs` is modelled by `Option` (`none` = the line
is skipped), and an exception escaping a whole call by `Except`.
Greedy regular-expression groups (`(.*)` followed by a fixed tail) are
modelled by choosing the rightmost position at which the tail pattern
matches, which is exactly what backtracking computes.
-/

abbrev Str : Type := List Char

namespace HLL

/-- `s.split(sep, 1)`: split at the first occurrence of `sep`.
`none` when `sep` does not occur (unpacking then raises `ValueError`). -/
def splitOnce (sep : Str) : Str → Option (Str × Str)
  | [] => if sep.isPrefixOf ([] : Str) then some ([], []) else none
  | c :: t =>
    if sep.isPrefixOf (c :: t) then some ([], (c :: t).drop sep.length)
    else (splitOnce sep t).map (fun p => (c :: p.1, p.2))

/-- `s.rsplit(sep, 1)`: split at the last occurrence of `sep`. -/
def rsplitOnce (sep : Str) : Str → Option (Str × Str)
  | [] => if sep.isPrefixOf ([] : Str) then some ([], []) else none
  | c :: t =>
    match rsplitOnce sep t with
    | some p => some (c :: p.1, p.2)
    | none =>
      if sep.isPrefixOf (c :: t) then some ([], (c :: t).drop sep.length)
      else none

/-- Python `needle in hay` for strings. -/
def containsStr (needle hay : Str) : Bool := (splitOnce needle hay).isSome

/-- `s.split(sep)[-1]`: the text after the last occurrence of `sep`
(`s` itself when `sep` does not occur). -/
def afterLast (sep s : Str) : Str :=
  match rsplitOnce sep s with
  | some p => p.2
  | none => s

/-- Full `s.split(sep)`, fuelled (the remainder shrinks at every step). -/
def splitAllGo (sep : Str) : Nat → Str → List Str
  | 0, s => [s]
  | fuel + 1, s =>
    match splitOnce sep s with
    | none => [s]
    | some (a, b) => a :: splitAllGo sep fuel b

def splitAll (sep s : Str) : List Str := splitAllGo sep (s.length + 1) s

def upperStr (s : Str) : Str := s.map Char.toUpper

def lowerStr (s : Str) : Str := s.map Char.toLower

/-- Maximal leading run of decimal digits (greedy `\d+`). -/
def takeDigits : Str → Str × Str
  | [] => ([], [])
  | c :: t =>
    if c.isDigit then
      let p := takeDigits t
      (c :: p.1, p.2)
    else ([], c :: t)

def digitsToNat (s : Str) : Nat := s.foldl (fun n c => n * 10 + (c.toNat - 48)) 0

/-- Greedy leading `(.*)`: pick the rightmost split `s = pre ++ suf` at which
`tryAt suf` succeeds, returning the group text `pre` and the tail's result. -/
def lastMatch {β : Type} (tryAt : Str → Option β) : Str → Option (Str × β)
  | [] => (tryAt []).map (fun b => (([] : Str), b))
  | c :: t =>
    match lastMatch tryAt t with
    | some (pre, b) => some (c :: pre, b)
    | none => (tryAt (c :: t)).map (fun b => (([] : Str), b))

/-- The last `(\d+)` group of `.*\((\d+)\).*` (regex `log_time_regexp`),
applied by `Rcon._extract_time`; `none` models the raised `ValueError`. -/
def parenTryAt : Str → Option Nat
  | '(' :: u =>
    let p := takeDigits u
    if p.1 = [] then none
    else
      match p.2 with
      | ')' :: _ => some (digitsToNat p.1)
      | _ => none
  | _ => none

def extract_time (timeField : Str) : Option Nat :=
  (lastMatch parenTryAt timeField).map (·.2)

/-- `((Allies)|(Axis))/` of the shared player-info pattern. -/
def sideSplit (t : Str) : Option (Str × Str) :=
  if "Allies/".toList.isPrefixOf t then some ("Allies".toList, t.drop 7)
  else if "Axis/".toList.isPrefixOf t then some ("Axis".toList, t.drop 5)
  else none

/-- Tail of `chat_regexp` after the greedy name group:
`\(((Allies)|(Axis))/(\d+)\)\]: (.*)` giving (side, steam id, message). -/
def chatTryAt : Str → Option (Str × Str × Str)
  | '(' :: u =>
    match sideSplit u with
    | some (side, v) =>
      let p := takeDigits v
      if p.1 = [] then none
      else if ")]: ".toList.isPrefixOf p.2 then some (side, p.1, p.2.drop 4)
      else none
    | none => none
  | _ => none

/-- `chat_regexp = CHAT\[((Team)|(Unit))\]\[(.*)\(((Allies)|(Axis))/(\d+)\)\]: (.*)`
matched at the start of the line remainder; result
(scope, player, side, steam id, message). -/
def chatMatch (rest : Str) : Option (Str × Str × Str × Str × Str) :=
  if "CHAT[".toList.isPrefixOf rest then
    let r1 := rest.drop 5
    let scopeSplit : Option (Str × Str) :=
      if "Team][".toList.isPrefixOf r1 then some ("Team".toList, r1.drop 6)
      else if "Unit][".toList.isPrefixOf r1 then some ("Unit".toList, r1.drop 6)
      else none
    match scopeSplit with
    | some (scope, r2) =>
      (lastMatch chatTryAt r2).map (fun q => (scope, q.1, q.2.1, q.2.2.1, q.2.2.2))
    | none => none
  else none

/-- Tail of `player_info_pattern + " -> "` used by `re.split` in the
KILL/TEAM KILL post-processing: `\(((Allies)|(Axis))/(\d+)\) -> ` giving
(steam id, text after the arrow). -/
def killTryAt : Str → Option (Str × Str)
  | '(' :: u =>
    match sideSplit u with
    | some (_, v) =>
      let p := takeDigits v
      if p.1 = [] then none
      else if ") -> ".toList.isPrefixOf p.2 then some (p.1, p.2.drop 5)
      else none
    | none => none
  | _ => none

/-- `re.split(player_info_pattern + " -> ", content, 1)`: the match starts at
position 0 with a greedy leading `(.*)`; returns (killer, steam id 1, rest).
`none` models the `IndexError` on `parts[1]` when there is no match. -/
def killSplit (content : Str) : Option (Str × Str × Str) :=
  (lastMatch killTryAt content).map (fun q => (q.1, q.2.1, q.2.2))

/-- Tail of `player_info_regexp = (.*)\(((Allies)|(Axis))/(\d+)\)` (trailing
text allowed by `re.match`): returns the steam id group. -/
def playerInfoTryAt : Str → Option Str
  | '(' :: u =>
    match sideSplit u with
    | some (_, v) =>
      let p := takeDigits v
      if p.1 = [] then none
      else
        match p.2 with
        | ')' :: _ => some p.1
        | _ => none
    | none => none
  | _ => none

/-- `player_info_regexp.match(s).groups()` giving (name, steam id);
`none` models the `AttributeError` on a failed match. -/
def playerInfoMatch (s : Str) : Option (Str × Str) :=
  lastMatch playerInfoTryAt s

/-- Tail of the CAMERA regex `\[(.*)\s{1}\((\d+)\)\]`: one whitespace, then
`(\d+)\]`; returns the steam id group. -/
def cameraTryAt : Str → Option Str
  | w :: '(' :: u =>
    if w.isWhitespace then
      let p := takeDigits u
      if p.1 = [] then none
      else if ")]".toList.isPrefixOf p.2 then some p.1
      else none
    else none
  | _ => none

/-- `re.match(r"\[(.*)\s{1}\((\d+)\)\]", content)` giving (player, steam id). -/
def cameraMatch (content : Str) : Option (Str × Str) :=
  match content with
  | '[' :: t => lastMatch cameraTryAt t
  | _ => none

/-- Innermost part of the TEAMSWITCH regex after `\s>\s` was located:
the final `(.*)\)` group runs up to the last `)`. -/
def arrowTryAt : Str → Option Str
  | w1 :: '>' :: w2 :: b =>
    if w1.isWhitespace && w2.isWhitespace then
      (rsplitOnce ")".toList b).map (fun p => w1 :: '>' :: w2 :: p.1)
    else none
  | _ => none

/-- `((.*)\s>\s(.*))\)` matched against the text after `\(`; returns the
outer group. -/
def tsInner (u : Str) : Option Str :=
  (lastMatch arrowTryAt u).map (fun p => p.1 ++ p.2)

def tsTryAt : Str → Option Str
  | w :: '(' :: u => if w.isWhitespace then tsInner u else none
  | _ => none

/-- `re.match(r"TEAMSWITCH\s(.*)\s\(((.*)\s>\s(.*))\)", rest)` giving
(player, `from > to` group). -/
def tsMatch (rest : Str) : Option (Str × Str) :=
  if "TEAMSWITCH".toList.isPrefixOf rest then
    match rest.drop 10 with
    | w :: t => if w.isWhitespace then lastMatch tsTryAt t else none
    | [] => none
  else none

/-- Tail of the kick regex after the greedy name group: `\]\s(has been
kicked. \[((KICKED)|(BANNED FOR 2 HOURS)) FOR TEAM KILLING!\])`; returns the
kick/ban tag. -/
def kickTryAt : Str → Option Str
  | ']' :: w :: u =>
    if w.isWhitespace && "has been kicked. [".toList.isPrefixOf u then
      let u' := u.drop 18
      if "KICKED FOR TEAM KILLING!]".toList.isPrefixOf u' then
        some "KICKED".toList
      else if "BANNED FOR 2 HOURS FOR TEAM KILLING!]".toList.isPrefixOf u' then
        some "BANNED FOR 2 HOURS".toList
      else none
    else none
  | _ => none

/-- The `KICK: [...] has been kicked. [... FOR TEAM KILLING!]` regex, giving
(player, full kicked-message group, tag). -/
def kickMatch (rest : Str) : Option (Str × Str × Str) :=
  if "KICK:".toList.isPrefixOf rest then
    match rest.drop 5 with
    | w :: '[' :: t =>
      if w.isWhitespace then
        (lastMatch kickTryAt t).map (fun p =>
          (p.1, "has been kicked. [".toList ++ p.2 ++ " FOR TEAM KILLING!]".toList, p.2))
      else none
    | _ => none
  else none

/-- `\]\. VoteID: \[\d+\]` tail of the VOTE STARTED regex. -/
def voteIdTryAt : Str → Option Unit
  | t =>
    if "]. VoteID: [".toList.isPrefixOf t then
      let p := takeDigits (t.drop 12)
      if p.1 = [] then none
      else
        match p.2 with
        | ']' :: _ => some ()
        | _ => none
    else none

/-- ` against \[(.*)\]\. VoteID: \[\d+\]` scanned by the greedy `.*` before
it; returns the target group. -/
def vsAgainstTryAt (u : Str) : Option Str :=
  if " against [".toList.isPrefixOf u then
    (lastMatch voteIdTryAt (u.drop 10)).map (·.1)
  else none

def vsTryAt : Str → Option Str
  | ']' :: u => (lastMatch vsAgainstTryAt u).map (·.2)
  | _ => none

/-- `re.match(r"VOTE Player \[(.*)\].* against \[(.*)\]\. VoteID: \[\d+\]", rest)`
giving (initiator, target). -/
def voteStartedMatch (rest : Str) : Option (Str × Str) :=
  if "VOTE Player [".toList.isPrefixOf rest then
    lastMatch vsTryAt (rest.drop 13)
  else none

def vvTryAt (t : Str) : Option Unit :=
  if "] voted".toList.isPrefixOf t then some () else none

/-- `re.match(r"VOTE Player \[(.*)\] voted.*", rest)` giving the voter. -/
def voteVotedMatch (rest : Str) : Option Str :=
  if "VOTE Player [".toList.isPrefixOf rest then
    (lastMatch vvTryAt (rest.drop 13)).map (·.1)
  else none

def vkTryAt : Str → Option Unit
  | '\x7d' :: _ => some ()
  | _ => none

/-- `re.match(r"VOTE Vote Kick \x7b(.*)\x7d.*", rest)` giving the target. -/
def voteKickMatch (rest : Str) : Option Str :=
  if "VOTE Vote Kick \x7b".toList.isPrefixOf rest then
    (lastMatch vkTryAt (rest.drop 16)).map (·.1)
  else none

/-- The module-level `LOG_ACTIONS` list (the "synthetic actions"). -/
def LOG_ACTIONS : List Str :=
  ["DISCONNECTED".toList, "CHAT[Allies]".toList, "CHAT[Axis]".toList,
   "CHAT[Allies][Unit]".toList, "KILL".toList, "CONNECTED".toList,
   "CHAT[Allies][Team]".toList, "CHAT[Axis][Team]".toList,
   "CHAT[Axis][Unit]".toList, "CHAT".toList, "VOTE COMPLETED".toList,
   "VOTE STARTED".toList, "VOTE".toList, "TEAMSWITCH".toList, "TK".toList,
   "TK KICKED".toList, "TK BANNED FOR 2 HOURS".toList, "MATCH".toList,
   "MATCH START".toList, "MATCH ENDED".toList]

/-- One record appended to `res` by `Rcon.parse_logs`. -/
structure Event where
  version : Nat
  timestamp_ms : Nat
  relative_time_ms : Int
  raw : Str
  line_without_time : Str
  action : Option Str
  player : Option Str
  steam_id_64_1 : Option Str
  player2 : Option Str
  steam_id_64_2 : Option Str
  weapon : Option Str
  message : Str
  sub_content : Option Str
deriving DecidableEq, Repr

/-- The dictionary returned by `Rcon.parse_logs`.  The Python `set`s are
modelled as insertion-ordered duplicate-free lists. -/
structure LogBatch where
  actions : List (Option Str)
  players : List (Option Str)
  logs : List Event
deriving DecidableEq, Repr

/-- The per-line variables of the classification `if/elif` chain. -/
structure Fields where
  action : Option Str := none
  player : Option Str := none
  player2 : Option Str := none
  steam_id_64_1 : Option Str := none
  steam_id_64_2 : Option Str := none
  weapon : Option Str := none
  sub_content : Option Str := none
  content : Str
deriving DecidableEq

/-- The classification `if/elif` chain of `parse_logs` on the text after the
time field (`rest`).  `none` models a raised-and-caught per-line exception
(the line is skipped) and the final `else: continue`. -/
def classify (rest : Str) : Option Fields :=
  if "DISCONNECTED".toList.isPrefixOf rest || "CONNECTED".toList.isPrefixOf rest then
    match splitOnce " ".toList rest with
    | some (a, c) => some { action := some a, content := c }
    | none => none
  else if "KILL".toList.isPrefixOf rest || "TEAM KILL".toList.isPrefixOf rest then
    match splitOnce ": ".toList rest with
    | some (a, c) => some { action := some a, content := c }
    | none => none
  else if "CHAT".toList.isPrefixOf rest then
    match chatMatch rest with
    | some (scope, player, side, sid, msg) =>
      some { action := some ("CHAT[".toList ++ side ++ "][".toList ++ scope ++ "]".toList),
             player := some player, steam_id_64_1 := some sid,
             sub_content := some msg,
             content := player ++ ": ".toList ++ msg ++ " (".toList ++ sid ++ ")".toList }
    | none => none
  else if "VOTE".toList.isPrefixOf rest then
    let sc := afterLast "VOTE".toList rest
    if "VOTE Player".toList.isPrefixOf rest && containsStr " against ".toList (lowerStr rest) then
      match voteStartedMatch rest with
      | some (p1, p2) =>
        some { action := some "VOTE STARTED".toList, player := some p1,
               player2 := some p2, sub_content := some sc, content := sc }
      | none => none
    else if "VOTE Player".toList.isPrefixOf rest && containsStr "voted".toList (lowerStr rest) then
      match voteVotedMatch rest with
      | some p =>
        some { action := some "VOTE".toList, player := some p,
               sub_content := some sc, content := sc }
      | none => none
    else if containsStr "completed".toList (lowerStr rest) then
      some { action := some "VOTE COMPLETED".toList, sub_content := some sc, content := sc }
    else if containsStr "kick".toList (lowerStr rest) then
      match voteKickMatch rest with
      | some p =>
        some { action := some "VOTE COMPLETED".toList, player := some p,
               sub_content := some sc, content := sc }
      | none => none
    else
      some { action := some "VOTE".toList, player := some ([] : Str),
             sub_content := some sc, content := sc }
  else if "PLAYER".toList.isPrefixOf (upperStr rest) then
    match splitOnce " ".toList rest with
    | some (_, c) =>
      match cameraMatch c with
      | some (p, sid) =>
        match rsplitOnce "]".toList c with
        | some (_, sc2) =>
          some { action := some "CAMERA".toList, player := some p,
                 steam_id_64_1 := some sid, sub_content := some sc2, content := c }
        | none => none
      | none => some { action := some "CAMERA".toList, content := c }
    | none => none
  else if "TEAMSWITCH".toList.isPrefixOf (upperStr rest) then
    match tsMatch rest with
    | some (p, sc) =>
      some { action := some "TEAMSWITCH".toList, player := some p,
             sub_content := some sc, content := rest }
    | none => some { action := some "TEAMSWITCH".toList, content := rest }
  else if "KICK".toList.isPrefixOf (upperStr rest) && containsStr "FOR TEAM KILLING".toList rest then
    match kickMatch rest with
    | some (p, sc, ty) =>
      some { action := some ("TK ".toList ++ ty), player := some p,
             sub_content := some sc, content := rest }
    | none => some { content := rest }
  else if "MATCH START".toList.isPrefixOf (upperStr rest) then
    match splitAll "MATCH START ".toList rest with
    | [_, sc] => some { action := some "MATCH START".toList, sub_content := some sc, content := rest }
    | _ => none
  else if "MATCH ENDED".toList.isPrefixOf (upperStr rest) then
    match splitAll "MATCH ENDED ".toList rest with
    | [_, sc] => some { action := some "MATCH ENDED".toList, sub_content := some sc, content := rest }
    | _ => none
  else none

/-- The wall-clock-independent part of one `for line in raw.split("\n")`
iteration of `parse_logs`: time-field split, epoch extraction,
classification and the CONNECTED/KILL post-processing.  `none` models
`continue` after a caught per-line exception. -/
def parseLineAux (line : Str) : Option (Nat × Str × Fields) := do
  let (time, rest) ← splitOnce "] ".toList line
  let secs ← extract_time (time.drop 1)
  let f ← classify rest
  let f1 :=
    if f.action = some "CONNECTED".toList ∨ f.action = some "DISCONNECTED".toList then
      { f with player := some f.content }
    else f
  let f2 ←
    if f1.action = some "KILL".toList ∨ f1.action = some "TEAM KILL".toList then do
      let (k, sid1, rest2) ← killSplit f1.content
      let (p2a, wpn) ← rsplitOnce " with ".toList rest2
      let (n2, sid2) ← playerInfoMatch p2a
      pure { f1 with player := some k, steam_id_64_1 := some sid1,
                     player2 := some n2, steam_id_64_2 := some sid2,
                     weapon := some wpn }
    else pure f1
  pure (secs, rest, f2)

/-- Assemble the emitted record (`res.append({...})`); `now` is
`datetime.now()` in milliseconds since the epoch. -/
def mkEvent (now : Int) (line : Str) (p : Nat × Str × Fields) : Event :=
  { version := 1, timestamp_ms := p.1 * 1000,
    relative_time_ms := (p.1 * 1000 : Int) - now,
    raw := line, line_without_time := p.2.1,
    action := p.2.2.action, player := p.2.2.player,
    steam_id_64_1 := p.2.2.steam_id_64_1, player2 := p.2.2.player2,
    steam_id_64_2 := p.2.2.steam_id_64_2, weapon := p.2.2.weapon,
    message := p.2.2.content, sub_content := p.2.2.sub_content }

/-- One iteration of the `for line in raw.split("\n")` body of `parse_logs`
up to (and excluding) the filter checks. -/
def parseLine (now : Int) (line : Str) : Option Event :=
  (parseLineAux line).map (mkEvent now line)

/-- Python `set.add`, on an insertion-ordered duplicate-free list. -/
def insertSet (l : List (Option Str)) (x : Option Str) : List (Option Str) :=
  if x ∈ l then l else l ++ [x]

/-- `if filter_action and not action.startswith(filter_action)`.  When the
action is `None` and a truthy `filter_action` is given, Python raises
`AttributeError` outside the per-line `try`, aborting the whole call. -/
def actionPass (fa : Option Str) (action : Option Str) : Except Unit Bool :=
  match fa with
  | none => .ok true
  | some f =>
    if f = [] then .ok true
    else
      match action with
      | none => .error ()
      | some a => .ok (f.isPrefixOf a)

/-- `if filter_player and filter_player not in line`. -/
def playerPass (fp : Option Str) (line : Str) : Bool :=
  match fp with
  | none => true
  | some p => if p = [] then true else containsStr p line

/-- The loop of `parse_logs`, with the accumulated players/actions sets and
the `res` list as explicit state.  On exhaustion it reverses `res` and unions
the synthetic `LOG_ACTIONS` into the observed actions. -/
def parseGo (now : Int) (fa fp : Option Str) :
    List Str → List (Option Str) → List (Option Str) → List Event →
    Except Unit LogBatch
  | [], players, actions, res =>
    .ok { actions := actions ++ LOG_ACTIONS.map some, players := players,
          logs := res.reverse }
  | line :: rest, players, actions, res =>
    if line = [] then parseGo now fa fp rest players actions res
    else
      match parseLine now line with
      | none => parseGo now fa fp rest players actions res
      | some ev =>
        let players' := insertSet (insertSet players ev.player) ev.player2
        let actions' := insertSet actions ev.action
        match actionPass fa ev.action with
        | .error e => .error e
        | .ok false => parseGo now fa fp rest players' actions' res
        | .ok true =>
          if playerPass fp line then
            parseGo now fa fp rest players' actions' (res ++ [ev])
          else parseGo now fa fp rest players' actions' res

/-- `Rcon.parse_logs(raw, filter_action, filter_player)`; `now` is the
wall-clock time `datetime.now()` observed at the start of the call,
in milliseconds. -/
def parse_logs (raw : String) (fa fp : Option String) (now : Int) :
    Except Unit LogBatch :=
  parseGo now (fa.map String.toList) (fp.map String.toList)
    (splitAll ['\n'] raw.toList) [] [] []

/-! ## Rotation reconciler (`Rcon.set_maprotation`) -/

/-- A remote rotation operation issued by `set_maprotation`
(`do_add_map_to_rotation` / `do_remove_map_from_rotation`). -/
inductive RotOp where
  | add (m : Str)
  | remove (m : Str)
deriving DecidableEq, Repr

/-- Remote effect of one rotation operation: adding appends the map,
removing drops every occurrence of the named map. -/
def applyOp (rot : List Str) : RotOp → List Str
  | .add m => rot ++ [m]
  | .remove m => rot.filter (fun x => x ≠ m)

/-- The loop body of the single-map-current branch (`len(current) == 1`)
for one `enumerate(rotation)` entry: both `if`s are tested (no `elif`). -/
def singleStep (current : List Str) (p : Nat × Str) : List RotOp :=
  (if p.2 ∉ current then [RotOp.add p.2] else []) ++
  (if p.2 ∈ current ∧ p.1 ≠ 0 then [RotOp.remove p.2, RotOp.add p.2] else [])

/-- The ordered sequence of remote operations issued by
`Rcon.set_maprotation(rotation)` when the live rotation is `current`.
`set(current) - \x7bfirst\x7d == set(current)` is equivalent to
`first ∉ current`; the unordered Python set `to_remove` is modelled as a
duplicate-free list of the same elements.  The trailing
`do_remove_map_from_rotation(m)` of the single-map branch really removes
`m`, the last loop variable, i.e. the last entry of `rotation`. -/
def set_maprotation_ops (current rotation : List Str) : Except Unit (List RotOp) :=
  if rotation = [] then .error ()
  else if rotation = current then .ok []
  else if current.length = 1 then
    .ok (rotation.enum.flatMap (singleStep current) ++
         (if current.headI ∈ rotation then [] else [RotOp.remove (rotation.getLastD [])]))
  else
    match rotation with
    | [] => .error ()
    | first :: rest =>
      let to_remove := (current.filter (fun x => x ≠ first)).dedup
      .ok ((if first ∈ current then [] else [RotOp.add first]) ++
           to_remove.map RotOp.remove ++ rest.map RotOp.add)

/-- The operations of one tail entry (`idx ≥ 1`) of the single-map branch,
as a function of the map alone. -/
def stepT (c : Str) (m : Str) : List RotOp :=
  if m = c then [RotOp.remove c, RotOp.add c] else [RotOp.add m]

/-- `true` iff the starting rotation and every state reached after each
individual remote operation is non-empty. -/
def allStatesNonempty (rot : List Str) : List RotOp → Bool
  | [] => !rot.isEmpty
  | op :: ops => !rot.isEmpty && allStatesNonempty (applyOp rot op) ops

/-! ## Cache consistency (`rcon.cache_utils`) -/

/-- Modelled from the spec: the `ttl_cache` / `invalidates` primitives live in
`rcon.cache_utils`, which is not among this repository's sources.  §4.3:
a read within the TTL window returns the previously computed value without
re-invoking the remote call; otherwise it calls through and stores the
result.  `fetchCount` counts remote calls so that "performs a fresh remote
call" is observable. -/
structure CacheState (α : Type) where
  cached : Option (α × Nat)
  fetchCount : Nat
deriving DecidableEq

/-- Modelled from the spec: a TTL-cached read at time `now`, where `remote`
is the value the underlying remote call would currently produce. -/
def cacheRead (ttl now : Nat) (remote : α) (s : CacheState α) : α × CacheState α :=
  match s.cached with
  | some (v, t) =>
    if now < t + ttl then (v, s)
    else (remote, { cached := some (remote, now), fetchCount := s.fetchCount + 1 })
  | none => (remote, { cached := some (remote, now), fetchCount := s.fetchCount + 1 })

/-- Modelled from the spec: a mutating operation associated with this cache
key invalidates the key only if the remote mutation signals success,
otherwise leaves the cache untouched and propagates the failure (§4.3). -/
def cacheMutate (success : Bool) (s : CacheState α) : Except Unit (CacheState α) :=
  if success then .ok { s with cached := none } else .error ()

/-! ## Scoreboard (`Rcon.get_scoreboard`) -/

/-- Lexicographic string comparison by code point (Python `<=` on `str`). -/
def strLe : Str → Str → Bool
  | [], _ => true
  | _ :: _, [] => false
  | a :: s, b :: t => if a.toNat = b.toNat then strLe s t else decide (a.toNat < b.toNat)

/-- One pre-formatting scoreboard entry; Python's float division
`kills / max(death, 1)` is modelled as exact rational division. -/
structure ScoreEntry where
  player : Str
  kills : Nat
  deaths : Nat
  ratio : ℚ
deriving DecidableEq

/-- The dictionary keys a caller may pass as `sort`. -/
inductive SortKey where
  | player | kills | deaths | ratio
deriving DecidableEq

/-- The comparison realised by `sorted(scoreboard, key=lambda o: o[sort],
reverse=True)`: `a` may precede `b` iff `key(b) <= key(a)` (Python's sort is
stable, so equal keys keep their input order). -/
def entryLe : SortKey → ScoreEntry → ScoreEntry → Bool
  | .player, a, b => strLe b.player a.player
  | .kills, a, b => decide (b.kills ≤ a.kills)
  | .deaths, a, b => decide (b.deaths ≤ a.deaths)
  | .ratio, a, b => decide (b.ratio ≤ a.ratio)

/-- The body of the `for player in logs["players"]` loop: falsy players are
skipped, kill/death counts are taken over the event list (`elif`: an event
only counts as a death if it was not already counted as a kill), and a
player with zero kills and zero deaths is skipped. -/
def entryFor (logs : List Event) (p : Option Str) : Option ScoreEntry :=
  match p with
  | none => none
  | some s =>
    if s = [] then none
    else
      let kills := logs.countP (fun l => decide (l.player = some s))
      let deaths := logs.countP (fun l => decide (¬ l.player = some s ∧ l.player2 = some s))
      if kills = 0 ∧ deaths = 0 then none
      else some { player := s, kills := kills, deaths := deaths,
                  ratio := (kills : ℚ) / ((max deaths 1 : Nat) : ℚ) }

def scoreboardEntries (players : List (Option Str)) (logs : List Event) : List ScoreEntry :=
  players.filterMap (entryFor logs)

/-- `Rcon.get_scoreboard` up to the final in-place `"%.2f"` formatting:
build one entry per non-falsy player and sort descending by the selected
key with Python's stable sort. -/
def get_scoreboard (players : List (Option Str)) (logs : List Event)
    (sort : SortKey) : List ScoreEntry :=
  (scoreboardEntries players logs).mergeSort (entryLe sort)

structure ScoreRow where
  player : Str
  kills : Nat
  deaths : Nat
  ratio : Str
deriving DecidableEq

/-- Two-decimal rendering of a rational, modelling `"%.2f"` (the
rounding of the binary double is modelled as exact decimal rounding). -/
def format2dec (q : ℚ) : Str :=
  let n : Int := round (q * 100)
  let fr : Nat := n.natAbs % 100
  (if n < 0 then ['-'] else []) ++ Nat.toDigits 10 (n.natAbs / 100) ++
    ['.'] ++ (if fr < 10 then ['0'] else []) ++ Nat.toDigits 10 fr

def renderEntry (e : ScoreEntry) : ScoreRow :=
  { player := e.player, kills := e.kills, deaths := e.deaths,
    ratio := format2dec e.ratio }

/-- The returned scoreboard, after `o["ratio"] = "%.2f" % o["ratio"]`. -/
def get_scoreboard_rendered (players : List (Option Str)) (logs : List Event)
    (sort : SortKey) : List ScoreRow :=
  (get_scoreboard players logs sort).map renderEntry

/-! ## VIP list (`Rcon.get_vip_ids`) -/

structure VipRecord where
  steam_id_64 : Str
  name : Str
deriving DecidableEq

/-- Python `str.strip()`: drop whitespace at both ends. -/
def stripStr (s : Str) : Str :=
  ((s.dropWhile Char.isWhitespace).reverse.dropWhile Char.isWhitespace).reverse

/-- `name.replace('"', "").replace("\n", "").strip()`. -/
def cleanName (n : Str) : Str :=
  stripStr ((n.filter (fun c => c ≠ '"')).filter (fun c => c ≠ '\n'))

/-- One loop iteration of `get_vip_ids`: `item.split(" ", 1)`; `none` models
the `ValueError` that is re-raised after `self._reconnect()`. -/
def parseVipItem (item : Str) : Option VipRecord :=
  (splitOnce " ".toList item).map (fun p => ⟨p.1, cleanName p.2⟩)

def vipLe (a b : VipRecord) : Bool := strLe a.name b.name

/-- `Rcon.get_vip_ids` on the raw remote reply lines: parse every item (the
first failure aborts the call) and return the records sorted ascending by
name (`sorted(l, key=lambda d: d[NAME])`, Python's stable sort). -/
def get_vip_ids (res : List Str) : Except Unit (List VipRecord) :=
  match res.mapM parseVipItem with
  | none => .error ()
  | some l => .ok (l.mergeSort vipLe)

/-! ## Specification-side characterisations used by the theorems -/

/-- Whether a single line is emitted under the given filters, and the event
it is emitted as: the one-pass characterisation of the loop body. -/
def emitLine (now : Int) (fa fp : Option Str) (line : Str) : Option Event :=
  if line = [] then none
  else
    match parseLine now line with
    | none => none
    | some ev =>
      match actionPass fa ev.action with
      | .error _ => none
      | .ok false => none
      | .ok true => if playerPass fp line then some ev else none

/-- The emitted events in input line order. -/
def emitted (now : Int) (fa fp : Option Str) (lines : List Str) : List Event :=
  lines.filterMap (emitLine now fa fp)

instance {ε α : Type} [DecidableEq ε] [DecidableEq α] : DecidableEq (Except ε α) :=
  fun a b =>
    match a, b with
    | .ok x, .ok y =>
      if h : x = y then isTrue (by rw [h]) else isFalse (by simp [h])
    | .error x, .error y =>
      if h : x = y then isTrue (by rw [h]) else isFalse (by simp [h])
    | .ok _, .error _ => isFalse (by simp)
    | .error _, .ok _ => isFalse (by simp)

/-- The emitted events of a raw blob in input line order. -/
def emittedOf (raw : String) (fa fp : Option String) (now : Int) : List Event :=
  emitted now (fa.map String.toList) (fp.map String.toList) (splitAll ['\n'] raw.toList)

/-- Erase the one wall-clock-dependent field of an event. -/
def eraseRel (e : Event) : Event := { e with relative_time_ms := 0 }

/-- Erase the wall-clock-dependent fields of a whole batch. -/
def eraseRelBatch (b : LogBatch) : LogBatch :=
  { b with logs := b.logs.map eraseRel }

/-! # Parser lemmas -/

lemma parseGo_logs (now : Int) (fa fp : Option Str) :
    ∀ (lines : List Str) (players actions : List (Option Str)) (res : List Event)
      (b : LogBatch),
      parseGo now fa fp lines players actions res = .ok b →
      b.logs = (res ++ emitted now fa fp lines).reverse := by
  intro lines
  induction lines with
  | nil =>
    intro players actions res b h
    simp only [parseGo, Except.ok.injEq] at h
    subst h
    simp [emitted]
  | cons line rest ih =>
    intro players actions res b h
    simp only [parseGo] at h
    by_cases hl : line = []
    · rw [if_pos hl] at h
      have := ih _ _ _ _ h
      simp [this, emitted, emitLine, hl]
    · rw [if_neg hl] at h
      cases hpl : parseLine now line with
      | none =>
        rw [hpl] at h
        have := ih _ _ _ _ h
        simp [this, emitted, emitLine, hl, hpl]
      | some ev =>
        simp only [hpl] at h
        cases hap : actionPass fa ev.action with
        | error e => simp only [hap] at h; cases h
        | ok pass =>
          simp only [hap] at h
          cases pass with
          | false =>
            have := ih _ _ _ _ h
            simp [this, emitted, emitLine, hl, hpl, hap]
          | true =>
            by_cases hpp : playerPass fp line = true
            · rw [if_pos hpp] at h
              have := ih _ _ _ _ h
              simp [this, emitted, emitLine, hl, hpl, hap, hpp]
            · rw [if_neg hpp] at h
              have := ih _ _ _ _ h
              simp [this, emitted, emitLine, hl, hpl, hap, hpp]

lemma parseGo_sets (now : Int) (fa fp : Option Str) :
    ∀ (lines : List Str) (players actions : List (Option Str))
      (res res' : List Event) (b b' : LogBatch),
      parseGo now fa fp lines players actions res = .ok b →
      parseGo now none none lines players actions res' = .ok b' →
      b.players = b'.players ∧ b.actions = b'.actions := by
  intro lines
  induction lines with
  | nil =>
    intro players actions res res' b b' h h'
    simp only [parseGo, Except.ok.injEq] at h h'
    subst h; subst h'
    exact ⟨rfl, rfl⟩
  | cons line rest ih =>
    intro players actions res res' b b' h h'
    simp only [parseGo] at h h'
    by_cases hl : line = []
    · rw [if_pos hl] at h h'
      exact ih _ _ _ _ _ _ h h'
    · rw [if_neg hl] at h h'
      cases hpl : parseLine now line with
      | none =>
        simp only [hpl] at h h'
        exact ih _ _ _ _ _ _ h h'
      | some ev =>
        simp only [hpl] at h h'
        simp only [actionPass, playerPass, if_true] at h'
        cases hap : actionPass fa ev.action with
        | error e => simp only [hap] at h; cases h
        | ok pass =>
          simp only [hap] at h
          cases pass with
          | false => exact ih _ _ _ _ _ _ h h'
          | true =>
            by_cases hpp : playerPass fp line = true
            · rw [if_pos hpp] at h
              exact ih _ _ _ _ _ _ h h'
            · rw [if_neg hpp] at h
              exact ih _ _ _ _ _ _ h h'

lemma parseGo_actions_suffix (now : Int) (fa fp : Option Str) :
    ∀ (lines : List Str) (players actions : List (Option Str))
      (res : List Event) (b : LogBatch),
      parseGo now fa fp lines players actions res = .ok b →
      ∃ acc, b.actions = acc ++ LOG_ACTIONS.map some := by
  intro lines
  induction lines with
  | nil =>
    intro players actions res b h
    simp only [parseGo, Except.ok.injEq] at h
    subst h
    exact ⟨actions, rfl⟩
  | cons line rest ih =>
    intro players actions res b h
    simp only [parseGo] at h
    by_cases hl : line = []
    · rw [if_pos hl] at h
      exact ih _ _ _ _ h
    · rw [if_neg hl] at h
      cases hpl : parseLine now line with
      | none => simp only [hpl] at h; exact ih _ _ _ _ h
      | some ev =>
        simp only [hpl] at h
        cases hap : actionPass fa ev.action with
        | error e => simp only [hap] at h; cases h
        | ok pass =>
          simp only [hap] at h
          cases pass with
          | false => exact ih _ _ _ _ h
          | true =>
            by_cases hpp : playerPass fp line = true
            · rw [if_pos hpp] at h; exact ih _ _ _ _ h
            · rw [if_neg hpp] at h; exact ih _ _ _ _ h

lemma eraseRel_mkEvent (n m : Int) (line : Str) (p : Nat × Str × Fields) :
    eraseRel (mkEvent n line p) = eraseRel (mkEvent m line p) := rfl

lemma parseGo_now (n1 n2 : Int) (fa fp : Option Str) :
    ∀ (lines : List Str) (players actions : List (Option Str))
      (res1 res2 : List Event),
      res1.map eraseRel = res2.map eraseRel →
      (parseGo n1 fa fp lines players actions res1).map eraseRelBatch =
        (parseGo n2 fa fp lines players actions res2).map eraseRelBatch := by
  intro lines
  induction lines with
  | nil =>
    intro players actions res1 res2 hres
    simp only [parseGo, Except.map, eraseRelBatch]
    rw [List.map_reverse, List.map_reverse, hres]
  | cons line rest ih =>
    intro players actions res1 res2 hres
    simp only [parseGo]
    by_cases hl : line = []
    · rw [if_pos hl, if_pos hl]
      exact ih _ _ _ _ hres
    · rw [if_neg hl, if_neg hl]
      cases haux : parseLineAux line with
      | none =>
        simp only [parseLine, haux, Option.map_none']
        exact ih _ _ _ _ hres
      | some p =>
        have hres' : (res1 ++ [mkEvent n1 line p]).map eraseRel =
            (res2 ++ [mkEvent n2 line p]).map eraseRel := by
          simp only [List.map_append, hres, List.map_cons, List.map_nil,
            eraseRel_mkEvent n1 n2 line p]
        simp only [parseLine, haux, Option.map_some', mkEvent]
        simp only [mkEvent] at hres'
        cases hap : actionPass fa p.2.2.action with
        | error e => simp only [hap]
        | ok pass =>
          cases pass with
          | false => exact ih _ _ _ _ hres
          | true =>
            by_cases hpp : playerPass fp line = true
            · simp only [if_pos hpp]
              exact ih _ _ _ _ hres'
            · simp only [if_neg hpp]
              exact ih _ _ _ _ hres

/-! # Claim theorems about the parser -/

/-- C8: for every raw log blob, filters and wall-clock time, a successful
`parse_logs` call returns the emitted events in the reverse of input line
order: `logs` is the reversal of the emitted-in-input-order sequence, so the
event of a later input line appears at the mirrored, earlier position. -/
theorem parse_logs_reverses_input_order (raw : String) (fa fp : Option String)
    (now : Int) (b : LogBatch) (h : parse_logs raw fa fp now = .ok b) :
    b.logs = (emittedOf raw fa fp now).reverse ∧
    ∀ i : Nat, i < (emittedOf raw fa fp now).length →
      b.logs[i]? = (emittedOf raw fa fp now)[(emittedOf raw fa fp now).length - 1 - i]? := by
  unfold emittedOf
  have hl := parseGo_logs now (fa.map String.toList) (fp.map String.toList)
    (splitAll ['\n'] raw.toList) [] [] [] b h
  simp only [List.nil_append] at hl
  refine ⟨hl, fun i hi => ?_⟩
  rw [hl, List.getElem?_reverse hi]

/-- Witness for C8 at a concrete two-line blob. -/
theorem parse_logs_reverses_input_order_witness :
    (parse_logs "[a (1)] CONNECTED A\n[b (2)] CONNECTED B" none none 0).map
        LogBatch.logs =
      .ok (emittedOf "[a (1)] CONNECTED A\n[b (2)] CONNECTED B" none none 0).reverse := by
  cases hb : parse_logs "[a (1)] CONNECTED A\n[b (2)] CONNECTED B" none none 0 with
  | error e => cases e; exact absurd hb (by decide)
  | ok b =>
    have := (parse_logs_reverses_input_order
      "[a (1)] CONNECTED A\n[b (2)] CONNECTED B" none none 0 b hb).1
    simp [Except.map, this]

/-- C7: the discovered player and action sets are not affected by the
filters: a filtered call that returns agrees on `players` and `actions`
with the unfiltered call on the same blob. -/
theorem parse_logs_filters_keep_sets (raw : String) (fa fp : Option String)
    (now : Int) (b b' : LogBatch)
    (h : parse_logs raw fa fp now = .ok b)
    (h' : parse_logs raw none none now = .ok b') :
    b.players = b'.players ∧ b.actions = b'.actions :=
  parseGo_sets now (fa.map String.toList) (fp.map String.toList)
    (splitAll ['\n'] raw.toList) [] [] [] [] b b' h h'

/-- Witness for C7: a KILL filter drops the CONNECTED event but the
player/action sets match the unfiltered run. -/
theorem parse_logs_filters_keep_sets_witness :
    (parse_logs "[a (1)] CONNECTED A" (some "KILL") none 0).map LogBatch.players =
      (parse_logs "[a (1)] CONNECTED A" none none 0).map LogBatch.players := by
  cases hb : parse_logs "[a (1)] CONNECTED A" (some "KILL") none 0 with
  | error e => cases e; exact absurd hb (by decide)
  | ok b =>
    cases hb' : parse_logs "[a (1)] CONNECTED A" none none 0 with
    | error e => cases e; exact absurd hb' (by decide)
    | ok b' =>
      have := (parse_logs_filters_keep_sets "[a (1)] CONNECTED A"
        (some "KILL") none 0 b b' hb hb').1
      simp [Except.map, this]

/-- C9 counterexample: the same raw text parsed at two different wall-clock
times yields different `LogBatch` content (the `relative_time_ms` fields
differ), so `parse_logs` is not a pure function of its explicit inputs. -/
theorem parse_logs_not_pure_counterexample :
    parse_logs "[a (10)] CONNECTED X" none none 0 ≠
      parse_logs "[a (10)] CONNECTED X" none none 1000 := by decide

/-- C9 amended: `parse_logs` is a pure function of the raw text, the filters
and the wall-clock instant; two invocations on the same raw text and filters
agree on all `LogBatch` content except each event's `relative_time_ms`
(which measures the distance to `datetime.now()`). -/
theorem parse_logs_pure_up_to_wallclock (raw : String) (fa fp : Option String)
    (n1 n2 : Int) :
    (parse_logs raw fa fp n1).map eraseRelBatch =
      (parse_logs raw fa fp n2).map eraseRelBatch :=
  parseGo_now n1 n2 (fa.map String.toList) (fp.map String.toList)
    (splitAll ['\n'] raw.toList) [] [] [] [] rfl

/-- C6 counterexample: on an empty blob the returned `actions` are exactly
the module-level `LOG_ACTIONS`, and `CAMERA` (a member of the data model's
closed vocabulary, like `TEAM KILL`) is not among them. -/
theorem parse_logs_actions_missing_camera :
    parse_logs "" none none 0 = .ok ⟨LOG_ACTIONS.map some, [], []⟩ ∧
      some "CAMERA".toList ∉ LOG_ACTIONS.map some := by
  exact ⟨rfl, by decide⟩

/-- C6 amended: the `actions` of every successfully returned batch contain
every member of the module-level `LOG_ACTIONS` list (which omits `CAMERA`
and `TEAM KILL`). -/
theorem parse_logs_actions_contain_log_actions (raw : String)
    (fa fp : Option String) (now : Int) (b : LogBatch)
    (h : parse_logs raw fa fp now = .ok b) :
    ∀ a ∈ LOG_ACTIONS, some a ∈ b.actions := by
  obtain ⟨acc, hacc⟩ := parseGo_actions_suffix now (fa.map String.toList)
    (fp.map String.toList) (splitAll ['\n'] raw.toList) [] [] [] b h
  intro a ha
  rw [hacc]
  exact List.mem_append_right _ (List.mem_map_of_mem some ha)

/-- Witness for the amended C6 at the empty blob. -/
theorem parse_logs_actions_contain_log_actions_witness :
    some "KILL".toList ∈
      (⟨LOG_ACTIONS.map some, [], []⟩ : LogBatch).actions :=
  parse_logs_actions_contain_log_actions "" none none 0 _ rfl
    "KILL".toList (by decide)

/-- C1 failing input: a line that enters the `KICK`/`FOR TEAM KILLING`
branch but fails its regex is emitted with a null `action` (the branch logs
the parse failure but, unlike the unknown-line `else`, does not `continue`),
contradicting the claim that such lines are dropped and that every emitted
action is drawn from the closed vocabulary. -/
theorem parse_logs_emits_null_action :
    (parse_logs "[t (1)] KICK: Bob FOR TEAM KILLING" none none 0).map
        (fun b => b.logs.map (fun e => e.action)) = .ok [none] := by rfl

/-! # Rotation reconciler lemmas -/

lemma isEmpty_false_of_mem {x : Str} {s : List Str} (h : x ∈ s) :
    s.isEmpty = false := by
  cases s with
  | nil => cases h
  | cons a t => rfl

lemma isEmpty_false_of_ne_nil {s : List Str} (h : s ≠ []) :
    s.isEmpty = false := by
  cases s with
  | nil => exact absurd rfl h
  | cons a t => rfl

lemma mem_filter_ne {x m : Str} {s : List Str} (hx : x ∈ s) (hne : x ≠ m) :
    x ∈ s.filter (fun y => y ≠ m) := by
  refine List.mem_filter.mpr ⟨hx, ?_⟩
  simpa using hne

/-- An element of the rotation that no operation removes stays present, and
all intermediate states are non-empty. -/
lemma mem_allStates (x : Str) :
    ∀ (ops : List RotOp) (s : List Str), x ∈ s →
      (∀ m, RotOp.remove m ∈ ops → m ≠ x) →
      allStatesNonempty s ops = true ∧ x ∈ ops.foldl applyOp s := by
  intro ops
  induction ops with
  | nil =>
    intro s hx _
    refine ⟨?_, hx⟩
    show (!s.isEmpty) = true
    rw [isEmpty_false_of_mem hx]
    rfl
  | cons op ops ih =>
    intro s hx h
    cases op with
    | add m =>
      have hx' : x ∈ s ++ [m] := List.mem_append_left _ hx
      have hrec := ih (s ++ [m]) hx'
        (fun m' hm' => h m' (List.mem_cons_of_mem _ hm'))
      refine ⟨?_, hrec.2⟩
      show (!s.isEmpty && allStatesNonempty (applyOp s (RotOp.add m)) ops) = true
      rw [isEmpty_false_of_mem hx]
      exact hrec.1
    | remove m =>
      have hmx : m ≠ x := h m (List.mem_cons_self _ _)
      have hx' : x ∈ s.filter (fun y => y ≠ m) := mem_filter_ne hx (Ne.symm hmx)
      have hrec := ih (s.filter (fun y => y ≠ m)) hx'
        (fun m' hm' => h m' (List.mem_cons_of_mem _ hm'))
      refine ⟨?_, hrec.2⟩
      show (!s.isEmpty && allStatesNonempty (applyOp s (RotOp.remove m)) ops) = true
      rw [isEmpty_false_of_mem hx]
      exact hrec.1

lemma allStates_append {l1 l2 : List RotOp} :
    ∀ s, allStatesNonempty s l1 = true →
      allStatesNonempty (l1.foldl applyOp s) l2 = true →
      allStatesNonempty s (l1 ++ l2) = true := by
  induction l1 with
  | nil => intro s _ h2; exact h2
  | cons op l1 ih =>
    intro s h1 h2
    simp only [allStatesNonempty] at h1
    rw [Bool.and_eq_true] at h1
    show (!s.isEmpty && allStatesNonempty (applyOp s op) (l1 ++ l2)) = true
    rw [h1.1]
    exact ih _ h1.2 h2

/-- Processing the tail steps never empties the rotation, provided some
element different from the single current map is already present. -/
lemma allStates_stepT (c : Str) :
    ∀ (l : List Str) (s : List Str), s ≠ [] → (∃ x ∈ s, x ≠ c) →
      allStatesNonempty s (l.flatMap (stepT c)) = true := by
  intro l
  induction l with
  | nil =>
    intro s hs _
    show (!s.isEmpty) = true
    rw [isEmpty_false_of_ne_nil hs]
    rfl
  | cons m l ih =>
    intro s hs hx
    obtain ⟨x, hxs, hxc⟩ := hx
    by_cases hm : m = c
    · subst hm
      have hxf : x ∈ s.filter (fun y => y ≠ m) := mem_filter_ne hxs hxc
      have hrec := ih ((s.filter (fun y => y ≠ m)) ++ [m])
        (by simp) ⟨x, List.mem_append_left _ hxf, hxc⟩
      simp only [List.flatMap_cons, stepT, if_pos rfl, List.cons_append,
        List.nil_append]
      show (!s.isEmpty &&
        (!(applyOp s (RotOp.remove m)).isEmpty &&
          allStatesNonempty (applyOp (applyOp s (RotOp.remove m)) (RotOp.add m))
            (l.flatMap (stepT m)))) = true
      rw [isEmpty_false_of_ne_nil hs,
        isEmpty_false_of_mem (show x ∈ applyOp s (RotOp.remove m) from hxf)]
      exact hrec
    · have hrec := ih (s ++ [m]) (by simp)
        ⟨x, List.mem_append_left _ hxs, hxc⟩
      simp only [List.flatMap_cons, stepT, if_neg hm, List.cons_append,
        List.nil_append]
      show (!s.isEmpty &&
        allStatesNonempty (applyOp s (RotOp.add m)) (l.flatMap (stepT c))) = true
      rw [isEmpty_false_of_ne_nil hs]
      exact hrec

/-- For tail indices (`idx ≥ 1`) the single-map loop body reduces to
`stepT`. -/
lemma flatMap_singleStep_tail (c : Str) :
    ∀ (l : List Str) (i : Nat),
      (List.enumFrom (i + 1) l).flatMap (singleStep [c]) =
        l.flatMap (stepT c) := by
  intro l
  induction l with
  | nil => intro i; rfl
  | cons m l ih =>
    intro i
    simp only [List.enumFrom, List.flatMap_cons, ih (i + 1)]
    congr 1
    by_cases hm : m = c
    · subst hm
      simp [singleStep, stepT]
    · simp [singleStep, stepT, hm]

/-- A removal produced by the tail steps can only remove the single current
map `c`, and only when `c` occurs in the processed list. -/
lemma remove_mem_flatMap_stepT {c m : Str} {l : List Str}
    (h : RotOp.remove m ∈ l.flatMap (stepT c)) : m = c ∧ c ∈ l := by
  obtain ⟨a, ha, hop⟩ := List.mem_flatMap.mp h
  by_cases hac : a = c
  · subst hac
    simp only [stepT, if_pos rfl] at hop
    simp at hop
    exact ⟨hop, ha⟩
  · simp [stepT, hac] at hop

lemma getLastD_mem (l : List Str) (d : Str) (h : l ≠ []) : l.getLastD d ∈ l := by
  induction l generalizing d with
  | nil => exact absurd rfl h
  | cons a t ih =>
    cases ht : t with
    | nil => simp [List.getLastD]
    | cons b u =>
      rw [List.getLastD_cons]
      subst ht
      exact List.mem_cons_of_mem _ (ih _ (by simp))

/-- C3 amended: for a non-empty current rotation and a non-empty,
duplicate-free desired rotation, every intermediate state reached while
executing the operation sequence of `set_maprotation` (after each individual
remote add or remove) is non-empty. -/
theorem set_maprotation_ops_never_empty (current rotation : List Str)
    (ops : List RotOp) (h : set_maprotation_ops current rotation = .ok ops)
    (hc : current ≠ []) (hnd : rotation.Nodup) :
    allStatesNonempty current ops = true := by
  unfold set_maprotation_ops at h
  by_cases h0 : rotation = []
  · rw [if_pos h0] at h; cases h
  obtain ⟨r0, rtail, rfl⟩ := List.exists_cons_of_ne_nil h0
  rw [if_neg h0] at h
  by_cases h1 : r0 :: rtail = current
  · rw [if_pos h1] at h
    simp only [Except.ok.injEq] at h
    subst h
    show (!current.isEmpty) = true
    rw [isEmpty_false_of_ne_nil hc]
    rfl
  rw [if_neg h1] at h
  obtain ⟨hr0tl, hndtl⟩ := List.nodup_cons.mp hnd
  by_cases h2 : current.length = 1
  · rw [if_pos h2] at h
    simp only [Except.ok.injEq] at h
    subst h
    obtain ⟨c, rfl⟩ := List.length_eq_one.mp h2
    have henum : (r0 :: rtail).enum.flatMap (singleStep [c]) =
        singleStep [c] (0, r0) ++ rtail.flatMap (stepT c) := by
      show (List.enumFrom 0 (r0 :: rtail)).flatMap (singleStep [c]) = _
      rw [show List.enumFrom 0 (r0 :: rtail) =
        (0, r0) :: List.enumFrom 1 rtail from rfl]
      rw [List.flatMap_cons, flatMap_singleStep_tail c rtail 0]
    rw [henum]
    by_cases hcr : c ∈ r0 :: rtail
    · have hF : (if ([c] : List Str).headI ∈ r0 :: rtail then ([] : List RotOp)
          else [RotOp.remove ((r0 :: rtail).getLastD [])]) = [] := if_pos hcr
      rw [hF, List.append_nil]
      rcases List.mem_cons.mp hcr with hc0 | hctl
      · subst hc0
        have hA0 : singleStep [c] (0, c) = [] := by simp [singleStep]
        rw [hA0, List.nil_append]
        have hnotl : ∀ m, RotOp.remove m ∈ rtail.flatMap (stepT c) → m ≠ c := by
          intro m hm
          obtain ⟨_, hmem⟩ := remove_mem_flatMap_stepT hm
          exact absurd hmem hr0tl
        exact (mem_allStates c _ [c] (List.mem_singleton_self c) hnotl).1
      · have hr0c : r0 ≠ c := fun hh => hr0tl (hh ▸ hctl)
        have hA0 : singleStep [c] (0, r0) = [RotOp.add r0] := by
          simp [singleStep, hr0c]
        rw [hA0]
        show (!([c] : List Str).isEmpty &&
          allStatesNonempty (applyOp [c] (RotOp.add r0))
            (rtail.flatMap (stepT c))) = true
        exact allStates_stepT c rtail ([c] ++ [r0]) (by simp)
          ⟨r0, by simp, hr0c⟩
    · have hF : (if ([c] : List Str).headI ∈ r0 :: rtail then ([] : List RotOp)
          else [RotOp.remove ((r0 :: rtail).getLastD [])]) =
          [RotOp.remove ((r0 :: rtail).getLastD [])] := if_neg hcr
      rw [hF]
      have hr0c : r0 ≠ c := fun hh => hcr (hh ▸ List.mem_cons_self _ _)
      have hctl : c ∉ rtail := fun hh => hcr (List.mem_cons_of_mem _ hh)
      have hA0 : singleStep [c] (0, r0) = [RotOp.add r0] := by
        simp [singleStep, hr0c]
      rw [hA0]
      refine (mem_allStates c _ [c] (List.mem_singleton_self c) ?_).1
      intro m hm
      rcases List.mem_append.mp hm with hm1 | hm2
      · rcases List.mem_append.mp hm1 with hma | hmt
        · simp at hma
        · exact fun hh => hctl (hh ▸ (remove_mem_flatMap_stepT hmt).2)
      · have hlast : (r0 :: rtail).getLastD [] ∈ r0 :: rtail :=
          getLastD_mem _ _ (by simp)
        simp only [List.mem_singleton, RotOp.remove.injEq] at hm2
        subst hm2
        exact fun hh => hcr (hh ▸ hlast)
  · rw [if_neg h2] at h
    simp only [Except.ok.injEq] at h
    subst h
    by_cases hfc : r0 ∈ current
    · rw [if_pos hfc, List.nil_append]
      refine (mem_allStates r0 _ current hfc ?_).1
      intro m hm
      rcases List.mem_append.mp hm with hm1 | hm2
      · obtain ⟨a, ha, hae⟩ := List.mem_map.mp hm1
        obtain rfl : a = m := by injection hae
        have := List.mem_dedup.mp ha
        have := List.mem_filter.mp this
        intro hh
        subst hh
        simpa using this.2
      · obtain ⟨a, _, hae⟩ := List.mem_map.mp hm2
        cases hae
    · rw [if_neg hfc]
      show (!current.isEmpty &&
        allStatesNonempty (applyOp current (RotOp.add r0))
          ((List.map RotOp.remove
            ((current.filter (fun x => x ≠ r0)).dedup)) ++
            rtail.map RotOp.add)) = true
      rw [isEmpty_false_of_ne_nil hc]
      refine (mem_allStates r0 _ (current ++ [r0]) (by simp) ?_).1
      intro m hm
      rcases List.mem_append.mp hm with hm1 | hm2
      · obtain ⟨a, ha, hae⟩ := List.mem_map.mp hm1
        obtain rfl : a = m := by injection hae
        have := List.mem_dedup.mp ha
        have := List.mem_filter.mp this
        intro hh
        subst hh
        simpa using this.2
      · obtain ⟨a, _, hae⟩ := List.mem_map.mp hm2
        cases hae

/-- Witness for the amended C3 at `current = ["A"]`,
`desired = ["B", "A"]` (the spec's own example). -/
theorem set_maprotation_ops_never_empty_witness :
    allStatesNonempty ["A".toList]
      [RotOp.add "B".toList, RotOp.remove "A".toList, RotOp.add "A".toList] = true :=
  set_maprotation_ops_never_empty ["A".toList] ["B".toList, "A".toList]
    [RotOp.add "B".toList, RotOp.remove "A".toList, RotOp.add "A".toList]
    (by decide) (by decide) (by decide)

/-- C3 counterexample: with `current = ["A"]` and the duplicate-carrying
desired rotation `["A", "A"]`, `set_maprotation` issues `remove A` before
`add A`, so the live rotation is empty in between. -/
theorem set_maprotation_ops_empty_intermediate :
    set_maprotation_ops ["A".toList] ["A".toList, "A".toList] =
      .ok [RotOp.remove "A".toList, RotOp.add "A".toList] ∧
    allStatesNonempty ["A".toList]
      [RotOp.remove "A".toList, RotOp.add "A".toList] = false := by
  exact ⟨by decide, by decide⟩

/-- C2 failing input: with `current = ["A"]` and `desired = ["B", "C"]` the
single-map branch issues `add B, add C` and then removes `m` — the last loop
variable `"C"` — instead of `current[0] = "A"`, so the final rotation is
`["A", "B"]`, not the desired `["B", "C"]`. -/
theorem set_maprotation_ops_divergence :
    set_maprotation_ops ["A".toList] ["B".toList, "C".toList] =
      .ok [RotOp.add "B".toList, RotOp.add "C".toList, RotOp.remove "C".toList] ∧
    ([RotOp.add "B".toList, RotOp.add "C".toList,
        RotOp.remove "C".toList].foldl applyOp ["A".toList]) =
      ["A".toList, "B".toList] ∧
    (["A".toList, "B".toList] : List Str) ≠ ["B".toList, "C".toList] := by
  exact ⟨by decide, by decide, by decide⟩

/-! # Cache-consistency claim -/

/-- C4: a mutating operation associated with cache key K invalidates the key
exactly on remote success: after a successful mutation the next read calls
through to the remote (the fetch count increases and the remote value, not
the pre-mutation cached value, is returned); after a failed mutation the
failure is propagated, the cache is untouched, and a read within the TTL
still returns the prior cached value. -/
theorem cache_invalidate_on_success_only {α : Type} (ttl now : Nat)
    (remote : α) (s s' : CacheState α) :
    (cacheMutate true s = .ok s' →
      (cacheRead ttl now remote s').1 = remote ∧
      (cacheRead ttl now remote s').2.fetchCount = s.fetchCount + 1) ∧
    (cacheMutate false s = .error () ∧
      ∀ v t, s.cached = some (v, t) → now < t + ttl →
        cacheRead ttl now remote s = (v, s)) := by
  refine ⟨?_, rfl, ?_⟩
  · intro h
    have h' : ({ cached := none, fetchCount := s.fetchCount } : CacheState α) = s' := by
      simpa [cacheMutate] using h
    subst h'
    exact ⟨rfl, rfl⟩
  · intro v t hc hlt
    simp [cacheRead, hc, hlt]

/-- Witness for C4 at a concrete cached state. -/
theorem cache_invalidate_on_success_only_witness :
    (cacheRead 10 3 (7 : Nat) { cached := none, fetchCount := 2 }).1 = 7 ∧
    cacheRead 10 3 (7 : Nat) { cached := some (5, 0), fetchCount := 2 } =
      (5, { cached := some (5, 0), fetchCount := 2 }) := by
  have h := cache_invalidate_on_success_only (α := Nat) 10 3 7
    { cached := some (5, 0), fetchCount := 2 } { cached := none, fetchCount := 2 }
  exact ⟨(h.1 (by decide)).1, h.2.2 5 0 rfl (by decide)⟩

/-! # Scoreboard claim -/

lemma strLe_total : ∀ a b : Str, (strLe a b || strLe b a) = true := by
  intro a
  induction a with
  | nil => intro b; rfl
  | cons x s ih =>
    intro b
    cases b with
    | nil => simp [strLe]
    | cons y t =>
      simp only [strLe]
      by_cases hxy : x.toNat = y.toNat
      · rw [if_pos hxy, if_pos hxy.symm]
        exact ih t
      · rw [if_neg hxy, if_neg (fun hh => hxy hh.symm)]
        rcases Nat.lt_trichotomy x.toNat y.toNat with h | h | h
        · simp [h]
        · exact absurd h hxy
        · simp [h]

lemma strLe_trans : ∀ a b c : Str,
    strLe a b = true → strLe b c = true → strLe a c = true := by
  intro a
  induction a with
  | nil => intro b c _ _; rfl
  | cons x s ih =>
    intro b c hab hbc
    cases b with
    | nil => simp [strLe] at hab
    | cons y t =>
      cases c with
      | nil => simp [strLe] at hbc
      | cons z u =>
        simp only [strLe] at hab hbc ⊢
        by_cases h1 : x.toNat = y.toNat
        · rw [if_pos h1] at hab
          by_cases h2 : y.toNat = z.toNat
          · rw [if_pos h2] at hbc
            rw [if_pos (h1.trans h2)]
            exact ih t u hab hbc
          · rw [if_neg h2] at hbc
            have hlt : y.toNat < z.toNat := of_decide_eq_true hbc
            rw [if_neg (by omega)]
            exact decide_eq_true (by omega)
        · rw [if_neg h1] at hab
          have hlt1 : x.toNat < y.toNat := of_decide_eq_true hab
          by_cases h2 : y.toNat = z.toNat
          · rw [if_neg (by omega)]
            exact decide_eq_true (by omega)
          · rw [if_neg h2] at hbc
            have hlt2 : y.toNat < z.toNat := of_decide_eq_true hbc
            rw [if_neg (by omega)]
            exact decide_eq_true (by omega)

lemma entryLe_trans (k : SortKey) : ∀ a b c : ScoreEntry,
    entryLe k a b = true → entryLe k b c = true → entryLe k a c = true := by
  intro a b c hab hbc
  cases k with
  | player => exact strLe_trans _ _ _ hbc hab
  | kills =>
    simp only [entryLe, decide_eq_true_eq] at hab hbc ⊢
    omega
  | deaths =>
    simp only [entryLe, decide_eq_true_eq] at hab hbc ⊢
    omega
  | ratio =>
    simp only [entryLe, decide_eq_true_eq] at hab hbc ⊢
    exact le_trans hbc hab

lemma entryLe_total (k : SortKey) : ∀ a b : ScoreEntry,
    (entryLe k a b || entryLe k b a) = true := by
  intro a b
  cases k with
  | player => exact strLe_total b.player a.player
  | kills =>
    simp only [entryLe]
    rcases Nat.le_total a.kills b.kills with h | h <;> simp [h]
  | deaths =>
    simp only [entryLe]
    rcases Nat.le_total a.deaths b.deaths with h | h <;> simp [h]
  | ratio =>
    simp only [entryLe]
    rcases le_total a.ratio b.ratio with h | h <;> simp [h]

/-- C5: every scoreboard entry satisfies the ratio law
`ratio = kills / max(deaths, 1)`; a player with zero kills and zero deaths
never appears; the result is sorted descending by the caller-selected key,
ties keeping their input order (stability); it is a permutation of the
per-player entries; and the reported rows are the entries with the ratio
formatted to two decimals. -/
theorem get_scoreboard_spec (players : List (Option Str)) (logs : List Event)
    (sort : SortKey) :
    (∀ e ∈ get_scoreboard players logs sort,
        e.ratio = (e.kills : ℚ) / ((max e.deaths 1 : Nat) : ℚ) ∧
        ¬(e.kills = 0 ∧ e.deaths = 0)) ∧
    (get_scoreboard players logs sort).Pairwise
      (fun a b => entryLe sort a b = true) ∧
    (∀ a b : ScoreEntry, List.Sublist [a, b] (scoreboardEntries players logs) →
        entryLe sort a b = true →
        List.Sublist [a, b] (get_scoreboard players logs sort)) ∧
    (get_scoreboard players logs sort).Perm (scoreboardEntries players logs) ∧
    get_scoreboard_rendered players logs sort =
      (get_scoreboard players logs sort).map renderEntry := by
  refine ⟨?_, ?_, ?_, ?_, rfl⟩
  · intro e he
    have he' : e ∈ scoreboardEntries players logs :=
      List.mem_mergeSort.mp he
    obtain ⟨p, hp, hef⟩ := List.mem_filterMap.mp he'
    cases p with
    | none => cases hef
    | some s =>
      simp only [entryFor] at hef
      by_cases hs : s = []
      · rw [if_pos hs] at hef; cases hef
      · rw [if_neg hs] at hef
        by_cases hz : logs.countP (fun l => decide (l.player = some s)) = 0 ∧
            logs.countP (fun l => decide (¬ l.player = some s ∧ l.player2 = some s)) = 0
        · rw [if_pos hz] at hef; cases hef
        · rw [if_neg hz] at hef
          simp only [Option.some.injEq] at hef
          subst hef
          exact ⟨rfl, hz⟩
  · exact List.sorted_mergeSort (entryLe_trans sort) (entryLe_total sort) _
  · intro a b hsub hab
    exact List.pair_sublist_mergeSort (entryLe_trans sort) (entryLe_total sort)
      hab hsub
  · exact List.mergeSort_perm _ _

/-- Witness for C5: one KILL credited to `Al` yields the entry
`(Al, 1, 0, 1/max(0,1))`, and the ratio law holds at it. -/
theorem get_scoreboard_spec_witness :
    (⟨"Al".toList, 1, 0,
        ((1 : Nat) : ℚ) / ((max 0 1 : Nat) : ℚ)⟩ : ScoreEntry).ratio =
      (((⟨"Al".toList, 1, 0,
          ((1 : Nat) : ℚ) / ((max 0 1 : Nat) : ℚ)⟩ : ScoreEntry).kills : ℚ) /
        ((max (⟨"Al".toList, 1, 0,
            ((1 : Nat) : ℚ) / ((max 0 1 : Nat) : ℚ)⟩ : ScoreEntry).deaths 1 :
          Nat) : ℚ)) :=
  ((get_scoreboard_spec [some "Al".toList]
      [⟨1, 1000, 1000, [], [], some "KILL".toList, some "Al".toList, none,
        some "Bo".toList, none, none, [], none⟩] .ratio).1 _ (by
    rw [get_scoreboard, show scoreboardEntries [some "Al".toList]
        [⟨1, 1000, 1000, [], [], some "KILL".toList, some "Al".toList, none,
          some "Bo".toList, none, none, [], none⟩] =
        [⟨"Al".toList, 1, 0,
          ((1 : Nat) : ℚ) / ((max 0 1 : Nat) : ℚ)⟩] from rfl,
      List.mergeSort_singleton]
    exact List.mem_singleton_self _)).1

/-! # VIP list claim -/

lemma vipLe_trans : ∀ a b c : VipRecord,
    vipLe a b = true → vipLe b c = true → vipLe a c = true :=
  fun _ _ _ hab hbc => strLe_trans _ _ _ hab hbc

lemma vipLe_total : ∀ a b : VipRecord, (vipLe a b || vipLe b a) = true :=
  fun a b => strLe_total a.name b.name

/-- C10: when every remote VIP entry parses, `get_vip_ids` returns the
parsed `(steam_id_64, name)` records sorted ascending by player name,
whatever order the remote returned them in (the result is a name-sorted
permutation of the parsed records). -/
theorem get_vip_ids_sorted (res : List Str) (l : List VipRecord)
    (h : get_vip_ids res = .ok l) :
    l.Pairwise (fun a b => vipLe a b = true) ∧
    ∃ recs, res.mapM parseVipItem = some recs ∧ l.Perm recs := by
  unfold get_vip_ids at h
  cases hm : res.mapM parseVipItem with
  | none => rw [hm] at h; cases h
  | some recs =>
    rw [hm] at h
    simp only [Except.ok.injEq] at h
    subst h
    exact ⟨List.sorted_mergeSort vipLe_trans vipLe_total recs,
      recs, rfl, List.mergeSort_perm recs vipLe⟩

/-- Witness for C10 at a concrete two-entry reply returned out of name
order. -/
theorem get_vip_ids_sorted_witness :
    (List.mergeSort
      [(⟨"7656".toList, "B".toList⟩ : VipRecord), ⟨"7657".toList, "A".toList⟩]
      vipLe).Pairwise (fun a b => vipLe a b = true) :=
  (get_vip_ids_sorted ["7656 B".toList, "7657 A".toList] _ rfl).1

end HLL
